import Mathlib

/-!
# Verification of the Game-of-Life core (`src/gameOfLife.ts`)

A shallow embedding of the cellular-automaton core in Lean 4, together with
theorems settling the specification's claims about it.

Modelling conventions (JavaScript semantics, made explicit):

* A `Uint8Array` buffer is a `List Nat`; a store into it reduces the value
  mod 2^8 (`ToUint8`), and a store at an out-of-range index is a silent
  no-op.  A read at an out-of-range index yields `undefined` in JS; the
  claims below only exercise in-range reads (or reads whose `undefined`
  is used solely for truthiness, where `undefined` and `0` agree), so the
  embedding returns `0` there.
* JS `%` on integers is remainder with the sign of the dividend, i.e.
  `Int.tmod`.  `Math.floor(a / 2)` on integers is floor division, which
  for the positive divisor 2 is Lean's `Int./` (Euclidean division).
* Dimensions `cols`, `rows` are natural numbers; cell coordinates and
  brush/pattern offsets are integers, as in the source (offsets are
  negative literals there).
-/

namespace GameOfLife

/-- TS `indexOf(x, y, cols) = y * cols + x` (row-major index). -/
def indexOf (x y cols : Int) : Int := y * cols + x

/-- Read `g[idx]` from a typed-array buffer.  All claim-relevant reads are
in range; out-of-range reads return the default `0` (see module comment). -/
def jsRead (g : List Nat) (idx : Int) : Nat :=
  if 0 ≤ idx then g.getD idx.toNat 0 else 0

/-- Store `g[idx] = v` into a `Uint8Array`: the value is reduced mod 256
(`ToUint8`) and an out-of-range index makes the store a silent no-op. -/
def jsWrite (g : List Nat) (idx : Int) (v : Nat) : List Nat :=
  if 0 ≤ idx ∧ idx.toNat < g.length then g.set idx.toNat (v % 256) else g

/-- TS `RulePreset = "conway" | "highlife" | "seeds"`. -/
inductive RulePreset where
  | conway
  | highlife
  | seeds
deriving DecidableEq

/-- `RULE_TABLES[r].born`. -/
def bornTable : RulePreset → List Bool
  | .conway => [false, false, false, true, false, false, false, false, false]
  | .highlife => [false, false, false, true, false, false, true, false, false]
  | .seeds => [false, false, true, false, false, false, false, false, false]

/-- `RULE_TABLES[r].survive`. -/
def surviveTable : RulePreset → List Bool
  | .conway => [false, false, true, true, false, false, false, false, false]
  | .highlife => [false, false, true, true, false, false, false, false, false]
  | .seeds => [false, false, false, false, false, false, false, false, false]

/-- The eight Moore offsets `(dx, dy)`, in the `dy`-outer / `dx`-inner order
of the two nested loops of `getNeighborCount`, skipping `(0, 0)`. -/
def neighborOffsets : List (Int × Int) :=
  [(-1, -1), (0, -1), (1, -1), (-1, 0), (1, 0), (-1, 1), (0, 1), (1, 1)]

/-- One loop iteration of `getNeighborCount`: the contribution of offset
`d = (dx, dy)`.  With `wrapEdges` both coordinates are reduced by
`(c + d + dim) % dim` (JS `%` = `Int.tmod`); otherwise an offset landing
outside `[0, cols) × [0, rows)` contributes nothing. -/
def neighborContrib (g : List Nat) (x y cols rows : Int) (wrap : Bool)
    (d : Int × Int) : Nat :=
  if wrap then
    jsRead g (indexOf (Int.tmod (x + d.1 + cols) cols)
      (Int.tmod (y + d.2 + rows) rows) cols)
  else if x + d.1 < 0 ∨ y + d.2 < 0 ∨ cols ≤ x + d.1 ∨ rows ≤ y + d.2 then 0
  else jsRead g (indexOf (x + d.1) (y + d.2) cols)

/-- TS `getNeighborCount(grid, x, y, cols, rows, wrapEdges)`: the live
Moore-neighbour count, accumulated over the eight offsets. -/
def getNeighborCount (g : List Nat) (x y cols rows : Int) (wrap : Bool) : Nat :=
  neighborOffsets.foldl (fun acc d => acc + neighborContrib g x y cols rows wrap d) 0

/-- The body of `stepGrid`'s double loop: the next state of cell `(x, y)`.
`alive` is the strict test `current[idx] === 1`; the rule-table lookup
`rule.survive[neighbors]` / `rule.born[neighbors]` yields `undefined`
(falsy) past index 8, which `List.getD _ _ false` reproduces. -/
def stepCell (g : List Nat) (cols rows : Nat) (rule : RulePreset) (wrap : Bool)
    (x y : Nat) : Nat :=
  let n := getNeighborCount g x y cols rows wrap
  if g.getD (y * cols + x) 0 = 1 then
    if (surviveTable rule).getD n false then 1 else 0
  else
    if (bornTable rule).getD n false then 1 else 0

/-- TS `stepGrid(current, cols, rows, {rule, wrapEdges})`: the source
allocates a zero buffer of length `cols * rows` and writes
`next[y*cols+x]` for every `y < rows`, `x < cols`; in row-major order that
is exactly this `flatMap`/`map` of `stepCell` over the index rectangle. -/
def stepGrid (g : List Nat) (cols rows : Nat) (rule : RulePreset) (wrap : Bool) :
    List Nat :=
  (List.range rows).flatMap (fun y =>
    (List.range cols).map (fun x => stepCell g cols rows rule wrap x y))

/-- TS `normalizeCoord(value, max, wrapEdges)`; `m` is the TS `max`
parameter.  With wrap the JS expression `(value + max) % max` is
`Int.tmod (value + m) m`; without wrap, out-of-range values give `null`. -/
def normalizeCoord (value : Int) (m : Int) (wrap : Bool) : Option Int :=
  if wrap then some (Int.tmod (value + m) m)
  else if value < 0 ∨ m ≤ value then none
  else some value

/-- The buffer index written by one offset `d` of a brush stroke or stamp
anchored at `(cx, cy)`: both coordinates are normalized independently, and
`none` (either `null` coordinate) means the offset is skipped. -/
def writeIndex (cols rows : Nat) (cx cy : Int) (wrap : Bool) (d : Int × Int) :
    Option Int :=
  match normalizeCoord (cx + d.1) cols wrap, normalizeCoord (cy + d.2) rows wrap with
  | some nx, some ny => some (indexOf nx ny cols)
  | _, _ => none

/-- The shared loop body of `applyBrush` and `stampPattern`: for each
offset in `offs` (in order), normalize it and, unless skipped, store the
constant value `v` at the resulting index. -/
def writeCells (g : List Nat) (cols rows : Nat) (cx cy : Int) (wrap : Bool)
    (v : Nat) (offs : List (Int × Int)) : List Nat :=
  offs.foldl (fun acc d =>
    match writeIndex cols rows cx cy wrap d with
    | some idx => jsWrite acc idx v
    | none => acc) g

/-- The integers from `a` to `b` inclusive, in increasing order (the index
range of a TS `for (let i = a; i <= b; i += 1)` loop). -/
def intRange (a b : Int) : List Int :=
  (List.range (b + 1 - a).toNat).map (fun i : Nat => a + (i : Int))

/-- The offsets `(dx, dy)` of the square brush of radius `r`, in the
`dy`-outer / `dx`-inner order of `applyBrush`'s nested loops. -/
def squareOffsets (r : Int) : List (Int × Int) :=
  (intRange (-r) r).flatMap (fun dy => (intRange (-r) r).map (fun dx => (dx, dy)))

/-- TS `Math.max(0, Math.floor((size - 1) / 2))`, the brush radius. -/
def brushRadius (size : Int) : Int := max 0 ((size - 1) / 2)

/-- TS `applyBrush(grid, cols, rows, x, y, size, alive, wrapEdges)`. -/
def applyBrush (g : List Nat) (cols rows : Nat) (x y : Int) (size : Int)
    (alive : Bool) (wrap : Bool) : List Nat :=
  writeCells g cols rows x y wrap (if alive then 1 else 0)
    (squareOffsets (brushRadius size))

/-- TS `PatternName = keyof typeof PATTERN_OFFSETS`. -/
inductive PatternName where
  | glider
  | blinker
  | lwss
  | rPentomino
deriving DecidableEq

/-- TS `PATTERN_OFFSETS`. -/
def PATTERN_OFFSETS : PatternName → List (Int × Int)
  | .glider => [(1, 0), (2, 1), (0, 2), (1, 2), (2, 2)]
  | .blinker => [(-1, 0), (0, 0), (1, 0)]
  | .lwss => [(-2, -1), (-1, -1), (0, -1), (1, -1), (-3, 0), (1, 0), (1, 1),
      (-3, 2), (0, 2)]
  | .rPentomino => [(0, -1), (1, -1), (-1, 0), (0, 0), (0, 1)]

/-- TS `stampPattern(grid, cols, rows, name, cx, cy, wrapEdges)`: every
pattern offset, anchored at `(cx, cy)` and normalized per coordinate, is
forced alive (stored value 1).  The TS defaults are
`cx = Math.floor(cols / 2)`, `cy = Math.floor(rows / 2)`, `wrapEdges = true`. -/
def stampPattern (g : List Nat) (cols rows : Nat) (name : PatternName)
    (cx cy : Int) (wrap : Bool) : List Nat :=
  writeCells g cols rows cx cy wrap 1 (PATTERN_OFFSETS name)

/-- TS `updateHeatMap(previous, currentGrid, decay, maxHeat)`: a fresh
buffer of `previous.length` entries; a truthy `currentGrid[i]` resets the
heat to `maxHeat`, otherwise `previous[i] > decay ? previous[i] - decay : 0`.
Stores go through `ToUint8` (mod 256). -/
def updateHeatMap (previous currentGrid : List Nat) (decay maxHeat : Nat) :
    List Nat :=
  (List.range previous.length).map (fun i =>
    if currentGrid.getD i 0 ≠ 0 then maxHeat % 256
    else (if decay < previous.getD i 0 then previous.getD i 0 - decay else 0) % 256)

/-- TS `countBirthsAndDeaths(previous, current)`: one pass over
`i < previous.length`, incrementing `births` when `!previous[i] && current[i]`
and `deaths` when `previous[i] && !current[i]` (JS truthiness: a number is
falsy exactly when it is 0, and an out-of-range read is falsy). -/
def countBirthsAndDeaths (previous current : List Nat) : Nat × Nat :=
  (List.range previous.length).foldl (fun acc i =>
    ((if previous.getD i 0 = 0 ∧ current.getD i 0 ≠ 0 then acc.1 + 1 else acc.1),
     (if previous.getD i 0 ≠ 0 ∧ current.getD i 0 = 0 then acc.2 + 1 else acc.2)))
    (0, 0)

end GameOfLife

namespace GameOfLife

/-! ## Generic list helpers -/

theorem foldl_add_eq_sum {α : Type} (f : α → Nat) :
    ∀ (l : List α) (a : Nat),
      l.foldl (fun acc d => acc + f d) a = a + (l.map f).sum := by
  intro l
  induction l with
  | nil => intro a; simp
  | cons d rest ih =>
    intro a
    rw [List.foldl_cons, ih, List.map_cons, List.sum_cons]
    omega

theorem flatMap_rect_length (C : Nat) (f : Nat → Nat → Nat) :
    ∀ R : Nat,
      ((List.range R).flatMap (fun y => (List.range C).map (f y))).length = R * C := by
  intro R
  induction R with
  | zero => simp
  | succ R ih =>
    rw [List.range_succ, List.flatMap_append, List.length_append, ih,
      List.flatMap_singleton, List.length_map, List.length_range, Nat.succ_mul]

theorem flatMap_rect_getD (C : Nat) (f : Nat → Nat → Nat) (x : Nat) (hx : x < C) :
    ∀ (R y : Nat), y < R →
      ((List.range R).flatMap (fun y => (List.range C).map (f y))).getD (y * C + x) 0
        = f y x := by
  intro R
  induction R with
  | zero => intro y hy; exact absurd hy (Nat.not_lt_zero y)
  | succ R ih =>
    intro y hy
    rw [List.range_succ, List.flatMap_append, List.flatMap_singleton]
    by_cases hyR : y < R
    · have hlt : y * C + x < R * C := by
        have h1 : (y + 1) * C ≤ R * C := Nat.mul_le_mul_right C hyR
        rw [Nat.succ_mul] at h1
        omega
      rw [List.getD_append _ _ _ _ (by rwa [flatMap_rect_length])]
      exact ih y hyR
    · have hyeq : y = R := by omega
      subst hyeq
      rw [List.getD_append_right _ _ _ _ (by rw [flatMap_rect_length]; omega)]
      rw [flatMap_rect_length, Nat.add_sub_cancel_left]
      rw [List.getD_eq_getElem?_getD, List.getElem?_map, List.getElem?_range hx]
      rfl

theorem mem_intRange {a b c : Int} : c ∈ intRange a b ↔ a ≤ c ∧ c ≤ b := by
  unfold intRange
  constructor
  · intro h
    obtain ⟨i, hi, heq⟩ := List.mem_map.mp h
    have him := List.mem_range.mp hi
    omega
  · intro h
    exact List.mem_map.mpr
      ⟨(c - a).toNat, List.mem_range.mpr (by omega), by omega⟩

theorem mem_squareOffsets {r : Int} {d : Int × Int} :
    d ∈ squareOffsets r ↔ -r ≤ d.1 ∧ d.1 ≤ r ∧ -r ≤ d.2 ∧ d.2 ≤ r := by
  unfold squareOffsets
  simp only [List.mem_flatMap, List.mem_map, mem_intRange]
  constructor
  · rintro ⟨dy, ⟨h1, h2⟩, dx, ⟨h3, h4⟩, rfl⟩
    exact ⟨h3, h4, h1, h2⟩
  · rintro ⟨h1, h2, h3, h4⟩
    exact ⟨d.2, ⟨h3, h4⟩, d.1, ⟨h1, h2⟩, rfl⟩

/-! ## Buffer read/write helpers -/

theorem jsRead_le_one {g : List Nat} (hval : ∀ v ∈ g, v = 0 ∨ v = 1) (idx : Int) :
    jsRead g idx ≤ 1 := by
  unfold jsRead
  split
  · rcases h : g.getD idx.toNat 0 with _ | n
    · omega
    · have hmem : (n + 1) ∈ g := by
        by_cases hlen : idx.toNat < g.length
        · rw [List.getD_eq_getElem?_getD, List.getElem?_eq_getElem hlen] at h
          simp only [Option.getD_some] at h
          exact h ▸ List.getElem_mem hlen
        · rw [List.getD_eq_default _ _ (by omega)] at h
          exact absurd h (by omega)
      rcases hval _ hmem with h01 | h01 <;> omega
  · omega

theorem jsRead_replicate_zero (k : Nat) (idx : Int) :
    jsRead (List.replicate k 0) idx = 0 := by
  unfold jsRead
  split
  · rw [List.getD_eq_getElem?_getD, List.getElem?_replicate]
    split <;> rfl
  · rfl

theorem jsWrite_length (g : List Nat) (idx : Int) (v : Nat) :
    (jsWrite g idx v).length = g.length := by
  unfold jsWrite
  split <;> simp

theorem jsWrite_getD_self {g : List Nat} {i : Nat} (hi : i < g.length) (v : Nat) :
    (jsWrite g (i : Int) v).getD i 0 = v % 256 := by
  unfold jsWrite
  rw [if_pos (by constructor <;> omega)]
  rw [List.getD_eq_getElem?_getD, Int.toNat_natCast, List.getElem?_set_self hi]
  rfl

theorem jsWrite_getD_ne {g : List Nat} {idx : Int} {i : Nat}
    (hne : idx ≠ (i : Int)) (v : Nat) :
    (jsWrite g idx v).getD i 0 = g.getD i 0 := by
  unfold jsWrite
  split
  · next h =>
    rw [List.getD_eq_getElem?_getD, List.getElem?_set_ne (by omega),
      ← List.getD_eq_getElem?_getD]
  · rfl

theorem writeCells_length (cols rows : Nat) (cx cy : Int) (wrap : Bool) (v : Nat) :
    ∀ (offs : List (Int × Int)) (g : List Nat),
      (writeCells g cols rows cx cy wrap v offs).length = g.length := by
  intro offs
  induction offs with
  | nil => intro g; rfl
  | cons d rest ih =>
    intro g
    rw [writeCells, List.foldl_cons]
    show (writeCells _ cols rows cx cy wrap v rest).length = _
    rw [ih]
    rcases hw : writeIndex cols rows cx cy wrap d with _ | idx <;> simp [hw, jsWrite_length]

/-- Master write-set characterization: after storing the constant value `v`
at the (possibly skipped) write index of every offset, a position `i` holds
`v % 256` iff some offset's write index is exactly `i`, and is untouched
otherwise. -/
theorem writeCells_getD (cols rows : Nat) (cx cy : Int) (wrap : Bool) (v : Nat) :
    ∀ (offs : List (Int × Int)) (g : List Nat) (i : Nat), i < g.length →
      (writeCells g cols rows cx cy wrap v offs).getD i 0 =
        if offs.any (fun d => writeIndex cols rows cx cy wrap d == some (i : Int))
        then v % 256 else g.getD i 0 := by
  intro offs
  induction offs with
  | nil => intro g i hi; simp [writeCells]
  | cons d rest ih =>
    intro g i hi
    rw [writeCells, List.foldl_cons]
    rcases hw : writeIndex cols rows cx cy wrap d with _ | idx
    · show (writeCells g cols rows cx cy wrap v rest).getD i 0 = _
      rw [ih g i hi, List.any_cons, hw]
      rfl
    · show (writeCells (jsWrite g idx v) cols rows cx cy wrap v rest).getD i 0 = _
      rw [ih (jsWrite g idx v) i (by rwa [jsWrite_length]), List.any_cons, hw]
      by_cases hidx : idx = (i : Int)
      · subst hidx
        rw [jsWrite_getD_self hi]
        have : ((some ((i : Nat) : Int) == some ((i : Nat) : Int)) : Bool) = true := by
          simp
        rw [this, Bool.true_or]
        split <;> rfl
      · rw [jsWrite_getD_ne hidx]
        have : ((some idx == some ((i : Nat) : Int)) : Bool) = false := by
          simpa using hidx
        rw [this, Bool.false_or]

end GameOfLife

namespace GameOfLife

/-! ## Integer modulus helpers -/

theorem add_emod_self_right (a b : Int) : (a + b) % b = a % b := by
  conv_lhs => rw [show a + b = a + b * 1 by ring]
  rw [Int.add_mul_emod_self_left]

theorem tmod_add_eq_emod {a b : Int} (h : 0 ≤ a + b) (hb : 0 ≤ b) :
    Int.tmod (a + b) b = a % b := by
  rw [Int.tmod_eq_emod h hb, add_emod_self_right]

/-! ## Neighbor-count lemmas -/

theorem getNeighborCount_eq_sum (g : List Nat) (x y cols rows : Int) (wrap : Bool) :
    getNeighborCount g x y cols rows wrap =
      (neighborOffsets.map (neighborContrib g x y cols rows wrap)).sum := by
  unfold getNeighborCount
  rw [foldl_add_eq_sum]
  omega

theorem neighborContrib_le_one {g : List Nat} (hval : ∀ v ∈ g, v = 0 ∨ v = 1)
    (x y cols rows : Int) (wrap : Bool) (d : Int × Int) :
    neighborContrib g x y cols rows wrap d ≤ 1 := by
  unfold neighborContrib
  split
  · exact jsRead_le_one hval _
  · split
    · omega
    · exact jsRead_le_one hval _

theorem getNeighborCount_le_eight {g : List Nat} (hval : ∀ v ∈ g, v = 0 ∨ v = 1)
    (x y cols rows : Int) (wrap : Bool) :
    getNeighborCount g x y cols rows wrap ≤ 8 := by
  rw [getNeighborCount_eq_sum]
  simp only [neighborOffsets, List.map_cons, List.map_nil, List.sum_cons,
    List.sum_nil]
  have h1 := neighborContrib_le_one hval x y cols rows wrap (-1, -1)
  have h2 := neighborContrib_le_one hval x y cols rows wrap (0, -1)
  have h3 := neighborContrib_le_one hval x y cols rows wrap (1, -1)
  have h4 := neighborContrib_le_one hval x y cols rows wrap (-1, 0)
  have h5 := neighborContrib_le_one hval x y cols rows wrap (1, 0)
  have h6 := neighborContrib_le_one hval x y cols rows wrap (-1, 1)
  have h7 := neighborContrib_le_one hval x y cols rows wrap (0, 1)
  have h8 := neighborContrib_le_one hval x y cols rows wrap (1, 1)
  omega

theorem neighborContrib_replicate_zero (k : Nat) (x y cols rows : Int)
    (wrap : Bool) (d : Int × Int) :
    neighborContrib (List.replicate k 0) x y cols rows wrap d = 0 := by
  unfold neighborContrib
  split
  · exact jsRead_replicate_zero _ _
  · split
    · rfl
    · exact jsRead_replicate_zero _ _

theorem getNeighborCount_replicate_zero (k : Nat) (x y cols rows : Int)
    (wrap : Bool) :
    getNeighborCount (List.replicate k 0) x y cols rows wrap = 0 := by
  rw [getNeighborCount_eq_sum]
  simp only [neighborOffsets, List.map_cons, List.map_nil, List.sum_cons,
    List.sum_nil, neighborContrib_replicate_zero]
  omega

/-! ## Rule-table lemmas -/

theorem conway_born_getD (n : Nat) :
    (bornTable .conway).getD n false = decide (n = 3) := by
  match n with
  | 0 | 1 | 2 | 3 | 4 | 5 | 6 | 7 | 8 => rfl
  | n + 9 =>
    rw [List.getD_eq_default _ _ (by simp [bornTable])]
    exact (decide_eq_false (by omega)).symm

theorem conway_survive_getD (n : Nat) :
    (surviveTable .conway).getD n false = decide (n = 2 ∨ n = 3) := by
  match n with
  | 0 | 1 | 2 | 3 | 4 | 5 | 6 | 7 | 8 => rfl
  | n + 9 =>
    rw [List.getD_eq_default _ _ (by simp [surviveTable])]
    exact (decide_eq_false (by omega)).symm

theorem seeds_survive_getD (n : Nat) :
    (surviveTable .seeds).getD n false = false := by
  match n with
  | 0 | 1 | 2 | 3 | 4 | 5 | 6 | 7 | 8 => rfl
  | n + 9 => exact List.getD_eq_default _ _ (by simp [surviveTable])

theorem bornTable_zero (rule : RulePreset) : (bornTable rule).getD 0 false = false := by
  cases rule <;> rfl

/-! ## `stepGrid` indexing -/

theorem stepGrid_length (g : List Nat) (cols rows : Nat) (rule : RulePreset)
    (wrap : Bool) : (stepGrid g cols rows rule wrap).length = rows * cols :=
  flatMap_rect_length cols _ rows

theorem stepGrid_getD (g : List Nat) (cols rows : Nat) (rule : RulePreset)
    (wrap : Bool) {x y : Nat} (hx : x < cols) (hy : y < rows) :
    (stepGrid g cols rows rule wrap).getD (y * cols + x) 0 =
      stepCell g cols rows rule wrap x y :=
  flatMap_rect_getD cols (fun y x => stepCell g cols rows rule wrap x y) x hx rows y hy

theorem getD_replicate_zero (k i : Nat) : (List.replicate k 0).getD i 0 = 0 := by
  rw [List.getD_eq_getElem?_getD, List.getElem?_replicate]
  split <;> rfl

theorem stepCell_replicate_zero (k cols rows : Nat) (rule : RulePreset)
    (wrap : Bool) (x y : Nat) :
    stepCell (List.replicate k 0) cols rows rule wrap x y = 0 := by
  simp only [stepCell, getNeighborCount_replicate_zero, getD_replicate_zero]
  rw [if_neg (by omega), bornTable_zero]
  rfl

theorem stepGrid_replicate_zero (cols rows : Nat) (rule : RulePreset) (wrap : Bool) :
    stepGrid (List.replicate (cols * rows) 0) cols rows rule wrap =
      List.replicate (cols * rows) 0 := by
  rw [List.eq_replicate_iff]
  constructor
  · rw [stepGrid_length, Nat.mul_comm]
  · intro b hb
    rw [stepGrid] at hb
    obtain ⟨y, _, hb⟩ := List.mem_flatMap.mp hb
    obtain ⟨x, _, hx⟩ := List.mem_map.mp hb
    rw [← hx, stepCell_replicate_zero]

end GameOfLife

namespace GameOfLife

theorem ite_one_zero_eq_one {P : Prop} [Decidable P] : (if P then 1 else 0) = 1 ↔ P := by
  split
  · simp [*]
  · simp [*]

/-- `stepCell` under the `conway` preset, with the two table lookups
evaluated: a live cell keeps living iff it has 2 or 3 live neighbours, a
dead cell is born iff it has exactly 3. -/
theorem stepCell_conway (g : List Nat) (cols rows : Nat) (wrap : Bool) (x y : Nat) :
    stepCell g cols rows .conway wrap x y =
      if g.getD (y * cols + x) 0 = 1 then
        (if getNeighborCount g x y cols rows wrap = 2 ∨
            getNeighborCount g x y cols rows wrap = 3 then 1 else 0)
      else
        (if getNeighborCount g x y cols rows wrap = 3 then 1 else 0) := by
  simp only [stepCell, conway_survive_getD, conway_born_getD, decide_eq_true_eq]

/-- C1: for every grid of length `cols * rows` with entries in `{0, 1}`,
every in-range cell `(x, y)` and either edge policy, the cell's next state
under the `conway` preset is determined by its live Moore-neighbour count
`n` in the input snapshot: a dead cell becomes alive iff `n = 3`, and a
live cell stays alive iff `n = 2 ∨ n = 3`. -/
theorem conway_step_rule (g : List Nat) (cols rows : Nat) (wrap : Bool) (x y : Nat)
    (hlen : g.length = cols * rows) (hval : ∀ v ∈ g, v = 0 ∨ v = 1)
    (hx : x < cols) (hy : y < rows) :
    (g.getD (y * cols + x) 0 = 0 →
      ((stepGrid g cols rows .conway wrap).getD (y * cols + x) 0 = 1 ↔
        getNeighborCount g x y cols rows wrap = 3)) ∧
    (g.getD (y * cols + x) 0 = 1 →
      ((stepGrid g cols rows .conway wrap).getD (y * cols + x) 0 = 1 ↔
        (getNeighborCount g x y cols rows wrap = 2 ∨
         getNeighborCount g x y cols rows wrap = 3))) := by
  rw [stepGrid_getD g cols rows .conway wrap hx hy, stepCell_conway]
  constructor
  · intro h0
    rw [if_neg (by omega)]
    exact ite_one_zero_eq_one
  · intro h1
    rw [if_pos h1]
    exact ite_one_zero_eq_one

/-- Witness for C1 at the horizontal blinker on a bounded 3x3 grid: the
dead cell `(1, 0)` has exactly 3 live neighbours and is born. -/
theorem conway_step_rule_witness :
    ([0, 0, 0, 1, 1, 1, 0, 0, 0] : List Nat).length = 3 * 3 ∧
    (∀ v ∈ ([0, 0, 0, 1, 1, 1, 0, 0, 0] : List Nat), v = 0 ∨ v = 1) ∧
    1 < 3 ∧ 0 < 3 ∧
    ((([0, 0, 0, 1, 1, 1, 0, 0, 0] : List Nat).getD (0 * 3 + 1) 0 = 0 →
      ((stepGrid [0, 0, 0, 1, 1, 1, 0, 0, 0] 3 3 .conway false).getD (0 * 3 + 1) 0 = 1 ↔
        getNeighborCount [0, 0, 0, 1, 1, 1, 0, 0, 0] 1 0 3 3 false = 3)) ∧
     (([0, 0, 0, 1, 1, 1, 0, 0, 0] : List Nat).getD (0 * 3 + 1) 0 = 1 →
      ((stepGrid [0, 0, 0, 1, 1, 1, 0, 0, 0] 3 3 .conway false).getD (0 * 3 + 1) 0 = 1 ↔
        (getNeighborCount [0, 0, 0, 1, 1, 1, 0, 0, 0] 1 0 3 3 false = 2 ∨
         getNeighborCount [0, 0, 0, 1, 1, 1, 0, 0, 0] 1 0 3 3 false = 3)))) :=
  ⟨by decide, by decide, by decide, by decide,
    conway_step_rule [0, 0, 0, 1, 1, 1, 0, 0, 0] 3 3 false 1 0
      (by decide) (by decide) (by decide) (by decide)⟩

/-- C2: stamping the blinker at the default centre anchor `(4, 4)` of an
all-dead 8x8 wrap-enabled grid and stepping twice under `conway` returns
the stamped grid bit-identically (period-2 oscillator). -/
theorem blinker_period_two :
    stepGrid (stepGrid (stampPattern (List.replicate 64 0) 8 8 .blinker 4 4 true)
        8 8 .conway true) 8 8 .conway true =
      stampPattern (List.replicate 64 0) 8 8 .blinker 4 4 true := by
  decide

/-- C3: for every preset `born[0] = false`, and iterating `stepGrid` any
number of times on the all-dead `cols x rows` grid (either edge policy)
leaves it all-dead. -/
theorem dead_grid_fixpoint (rule : RulePreset) (wrap : Bool) (cols rows m : Nat) :
    (bornTable rule).getD 0 false = false ∧
    (fun g => stepGrid g cols rows rule wrap)^[m] (List.replicate (cols * rows) 0) =
      List.replicate (cols * rows) 0 := by
  refine ⟨bornTable_zero rule, ?_⟩
  induction m with
  | zero => rfl
  | succ m ih =>
    rw [Function.iterate_succ_apply', ih]
    exact stepGrid_replicate_zero cols rows rule wrap

/-- C9: under the `seeds` preset (all-false survive table) every cell
alive in the input is dead in the output, so consecutive generations have
disjoint live-cell sets. -/
theorem seeds_kills_live (g : List Nat) (cols rows : Nat) (wrap : Bool)
    (hlen : g.length = cols * rows) (hval : ∀ v ∈ g, v = 0 ∨ v = 1)
    (x y : Nat) (hx : x < cols) (hy : y < rows) :
    (g.getD (y * cols + x) 0 = 1 →
      (stepGrid g cols rows .seeds wrap).getD (y * cols + x) 0 = 0) ∧
    ¬(g.getD (y * cols + x) 0 = 1 ∧
      (stepGrid g cols rows .seeds wrap).getD (y * cols + x) 0 = 1) := by
  have h : g.getD (y * cols + x) 0 = 1 →
      (stepGrid g cols rows .seeds wrap).getD (y * cols + x) 0 = 0 := by
    intro h1
    rw [stepGrid_getD g cols rows .seeds wrap hx hy]
    simp only [stepCell, seeds_survive_getD]
    rw [if_pos h1]
    simp
  refine ⟨h, ?_⟩
  rintro ⟨h1, h2⟩
  rw [h h1] at h2
  exact absurd h2 (by omega)

/-- Witness for C9 on the live 1x1 wrap grid: its cell dies. -/
theorem seeds_kills_live_witness :
    ([1] : List Nat).length = 1 * 1 ∧ (∀ v ∈ ([1] : List Nat), v = 0 ∨ v = 1) ∧
    0 < 1 ∧ 0 < 1 ∧
    ((([1] : List Nat).getD (0 * 1 + 0) 0 = 1 →
      (stepGrid [1] 1 1 .seeds true).getD (0 * 1 + 0) 0 = 0) ∧
     ¬(([1] : List Nat).getD (0 * 1 + 0) 0 = 1 ∧
      (stepGrid [1] 1 1 .seeds true).getD (0 * 1 + 0) 0 = 1)) :=
  ⟨by decide, by decide, by decide, by decide,
    seeds_kills_live [1] 1 1 true (by decide) (by decide) 0 0 (by decide) (by decide)⟩

end GameOfLife

namespace GameOfLife

/-- The N x N grid whose only live cell is the corner `(N-1, N-1)`. -/
def cornerGrid (N : Nat) : List Nat :=
  (List.replicate (N * N) 0).set ((N - 1) * N + (N - 1)) 1

/-- Counterexample to C4 as stated: on the 2x2 grid whose only live cell
is `(1, 1)`, that cell IS a direct in-range Moore neighbour of `(0, 0)`,
so with wrap disabled it still contributes (the count is 1, not 0). -/
theorem corner_neighbor_counterexample :
    ¬(getNeighborCount (cornerGrid 2) 0 0 2 2 false = 0) := by decide

theorem neighborContrib_bounded_skip (g : List Nat) (x y cols rows dx dy : Int)
    (h : x + dx < 0 ∨ y + dy < 0 ∨ cols ≤ x + dx ∨ rows ≤ y + dy) :
    neighborContrib g x y cols rows false (dx, dy) = 0 := by
  unfold neighborContrib
  rw [if_neg (by simp)]
  split
  · rfl
  · next hcond => exact absurd h hcond

theorem neighborContrib_bounded_read (g : List Nat) (x y cols rows dx dy : Int)
    (h : ¬(x + dx < 0 ∨ y + dy < 0 ∨ cols ≤ x + dx ∨ rows ≤ y + dy)) :
    neighborContrib g x y cols rows false (dx, dy) =
      jsRead g (indexOf (x + dx) (y + dy) cols) := by
  unfold neighborContrib
  rw [if_neg (by simp)]
  split
  · next hcond => exact absurd hcond h
  · rfl

theorem cornerGrid_jsRead_ne (N : Nat) (idx : Int) (h0 : 0 ≤ idx)
    (hne : idx.toNat ≠ (N - 1) * N + (N - 1)) :
    jsRead (cornerGrid N) idx = 0 := by
  unfold jsRead cornerGrid
  rw [if_pos h0, List.getD_eq_getElem?_getD,
    List.getElem?_set_ne (fun h => hne h.symm), List.getElem?_replicate]
  split <;> rfl

/-- Reading any cell `(a, b)` with both coordinates in `{0, 1}` of
`cornerGrid N` gives 0 once `N ≥ 3` (the live corner is further away). -/
theorem cornerGrid_read_small (N : Nat) (hN3 : 3 ≤ N) (a b : Int)
    (ha : 0 ≤ a ∧ a ≤ 1) (hb : 0 ≤ b ∧ b ≤ 1) :
    jsRead (cornerGrid N) (indexOf a b N) = 0 := by
  have hbN0 : (0 : Int) ≤ b * (N : Int) := mul_nonneg hb.1 (by omega)
  have hbN1 : b * (N : Int) ≤ 1 * (N : Int) :=
    mul_le_mul_of_nonneg_right hb.2 (by omega)
  rw [one_mul] at hbN1
  have hsub := Nat.sub_one_mul N N
  have hNN : 3 * N ≤ N * N := Nat.mul_le_mul_right N hN3
  apply cornerGrid_jsRead_ne
  · unfold indexOf; omega
  · unfold indexOf; omega

/-- C4 (amended): for every `N ≥ 1` with `N ≠ 2`, on the N x N grid whose
only live cell is `(N-1, N-1)`, the Moore count at `(0, 0)` is positive
with wrap and zero without wrap.  (At `N = 2` the corner is a direct
in-range neighbour of `(0, 0)`, so the bounded count is 1, not 0.) -/
theorem corner_neighbor_wrap_bounded (N : Nat) (h1 : 1 ≤ N) (h2 : N ≠ 2) :
    0 < getNeighborCount (cornerGrid N) 0 0 N N true ∧
    getNeighborCount (cornerGrid N) 0 0 N N false = 0 := by
  have hN : N ≤ N * N := Nat.le_mul_of_pos_left N (by omega)
  have hK : (N - 1) * N + (N - 1) < N * N := by
    have := Nat.sub_one_mul N N
    omega
  constructor
  · -- wrap: the offset (-1, -1) wraps to the live corner itself
    have ht : Int.tmod (0 + -1 + (N : Int)) (N : Int) = (N : Int) - 1 := by
      rw [Int.tmod_eq_emod (by omega) (by omega)]
      rw [show (0 + -1 + (N : Int)) = (N : Int) - 1 by ring]
      exact Int.emod_eq_of_lt (by omega) (by omega)
    have h0 : (0 : Int) ≤ indexOf ((N : Int) - 1) ((N : Int) - 1) (N : Int) := by
      unfold indexOf
      have := mul_nonneg (show (0 : Int) ≤ (N : Int) - 1 by omega)
        (show (0 : Int) ≤ (N : Int) by omega)
      omega
    have hidx : (indexOf ((N : Int) - 1) ((N : Int) - 1) (N : Int)).toNat =
        (N - 1) * N + (N - 1) := by
      unfold indexOf
      have e1 : ((N - 1 : Nat) : Int) = (N : Int) - 1 := by omega
      have e2 : ((N : Int) - 1) * (N : Int) + ((N : Int) - 1) =
          (((N - 1) * N + (N - 1) : Nat) : Int) := by
        rw [Nat.cast_add, Nat.cast_mul, e1]
      rw [e2, Int.toNat_natCast]
    have hcontrib :
        neighborContrib (cornerGrid N) 0 0 (N : Int) (N : Int) true (-1, -1) = 1 := by
      show jsRead (cornerGrid N)
        (indexOf (Int.tmod (0 + -1 + (N : Int)) (N : Int))
          (Int.tmod (0 + -1 + (N : Int)) (N : Int)) (N : Int)) = 1
      rw [ht]
      unfold jsRead
      rw [if_pos h0, hidx]
      unfold cornerGrid
      rw [List.getD_eq_getElem?_getD,
        List.getElem?_set_self (by rw [List.length_replicate]; exact hK)]
      rfl
    rw [getNeighborCount_eq_sum]
    simp only [neighborOffsets, List.map_cons, List.map_nil, List.sum_cons,
      List.sum_nil]
    omega
  · by_cases hN1 : N = 1
    · subst hN1; decide
    · have hN3 : 3 ≤ N := by omega
      rw [getNeighborCount_eq_sum]
      apply List.sum_eq_zero
      intro c hc
      obtain ⟨d, hd, rfl⟩ := List.mem_map.mp hc
      fin_cases hd
      · exact neighborContrib_bounded_skip _ _ _ _ _ _ _ (Or.inl (by decide))
      · exact neighborContrib_bounded_skip _ _ _ _ _ _ _ (Or.inr (Or.inl (by decide)))
      · exact neighborContrib_bounded_skip _ _ _ _ _ _ _ (Or.inr (Or.inl (by decide)))
      · exact neighborContrib_bounded_skip _ _ _ _ _ _ _ (Or.inl (by decide))
      · rw [neighborContrib_bounded_read _ _ _ _ _ _ _ (by intro hcon; omega)]
        exact cornerGrid_read_small N hN3 _ _ ⟨by omega, by omega⟩ ⟨by omega, by omega⟩
      · exact neighborContrib_bounded_skip _ _ _ _ _ _ _ (Or.inl (by decide))
      · rw [neighborContrib_bounded_read _ _ _ _ _ _ _ (by intro hcon; omega)]
        exact cornerGrid_read_small N hN3 _ _ ⟨by omega, by omega⟩ ⟨by omega, by omega⟩
      · rw [neighborContrib_bounded_read _ _ _ _ _ _ _ (by intro hcon; omega)]
        exact cornerGrid_read_small N hN3 _ _ ⟨by omega, by omega⟩ ⟨by omega, by omega⟩

/-- Witness for the amended C4 at `N = 5`. -/
theorem corner_neighbor_wrap_bounded_witness :
    1 ≤ 5 ∧ (5 : Nat) ≠ 2 ∧
    (0 < getNeighborCount (cornerGrid 5) 0 0 5 5 true ∧
     getNeighborCount (cornerGrid 5) 0 0 5 5 false = 0) :=
  ⟨by decide, by decide, corner_neighbor_wrap_bounded 5 (by decide) (by decide)⟩

end GameOfLife

namespace GameOfLife

/-! ## Heat tracker -/

theorem range_map_getD {f : Nat → Nat} {n i : Nat} (hi : i < n) :
    ((List.range n).map f).getD i 0 = f i := by
  rw [List.getD_eq_getElem?_getD, List.getElem?_map, List.getElem?_range hi]
  rfl

theorem updateHeatMap_length (previous currentGrid : List Nat) (decay maxHeat : Nat) :
    (updateHeatMap previous currentGrid decay maxHeat).length = previous.length := by
  unfold updateHeatMap
  rw [List.length_map, List.length_range]

theorem updateHeatMap_getD (previous currentGrid : List Nat) (decay maxHeat : Nat)
    {i : Nat} (hi : i < previous.length) :
    (updateHeatMap previous currentGrid decay maxHeat).getD i 0 =
      if currentGrid.getD i 0 ≠ 0 then maxHeat % 256
      else (if decay < previous.getD i 0 then previous.getD i 0 - decay else 0) % 256 := by
  unfold updateHeatMap
  exact range_map_getD hi

/-- Counterexample to C6 as stated: `maxHeat` is stored through the
`Uint8Array`'s `ToUint8` conversion, so for `maxHeat = 256` a live cell's
heat is `256 % 256 = 0`, not `maxHeat`. -/
theorem updateHeatMap_overflow_counterexample :
    ¬((updateHeatMap [0] [1] 1 256).getD 0 0 = 256) := by decide

/-- An external driver updating the heat buffer once per generation
against the grid snapshots `gs 0, gs 1, ...` (the claim's "m consecutive
updates"). -/
def heatIter (gs : Nat → List Nat) (decay maxHeat : Nat) (h0 : List Nat) :
    Nat → List Nat
  | 0 => h0
  | m + 1 => updateHeatMap (heatIter gs decay maxHeat h0 m) (gs m) decay maxHeat

theorem heatIter_length (gs : Nat → List Nat) (decay maxHeat : Nat)
    (h0 : List Nat) (m : Nat) :
    (heatIter gs decay maxHeat h0 m).length = h0.length := by
  induction m with
  | zero => rfl
  | succ m ih => rw [heatIter, updateHeatMap_length, ih]

/-- C6 (amended: `maxHeat ≤ 255`, i.e. `maxHeat` fits in the byte buffer):
elementwise, a live cell's heat resets to `maxHeat` and a dead cell's heat
becomes `max(previous - decay, 0)` (natural-number truncated subtraction),
staying in `[0, maxHeat]`; and a cell holding heat `maxHeat` that stays
dead for `m` consecutive updates holds `max(maxHeat - m * decay, 0)`. -/
theorem updateHeatMap_spec (previous currentGrid : List Nat) (decay maxHeat i : Nat)
    (hlen : currentGrid.length = previous.length) (hi : i < previous.length)
    (hmax : maxHeat ≤ 255) (hprev : previous.getD i 0 ≤ maxHeat) :
    ((currentGrid.getD i 0 ≠ 0 →
        (updateHeatMap previous currentGrid decay maxHeat).getD i 0 = maxHeat) ∧
     (currentGrid.getD i 0 = 0 →
        (updateHeatMap previous currentGrid decay maxHeat).getD i 0 =
          previous.getD i 0 - decay) ∧
     (updateHeatMap previous currentGrid decay maxHeat).getD i 0 ≤ maxHeat) ∧
    (∀ (gs : Nat → List Nat) (h0 : List Nat) (j m : Nat), j < h0.length →
      (∀ k, k < m → (gs k).getD j 0 = 0) → h0.getD j 0 = maxHeat →
      (heatIter gs decay maxHeat h0 m).getD j 0 = maxHeat - m * decay) := by
  constructor
  · rw [updateHeatMap_getD previous currentGrid decay maxHeat hi]
    refine ⟨?_, ?_, ?_⟩
    · intro h
      rw [if_pos h, Nat.mod_eq_of_lt (by omega)]
    · intro h
      rw [if_neg (by omega)]
      split
      · rw [Nat.mod_eq_of_lt (by omega)]
      · omega
    · split
      · rw [Nat.mod_eq_of_lt (by omega)]
      · split
        · rw [Nat.mod_eq_of_lt (by omega)]; omega
        · omega
  · intro gs h0 j m
    induction m with
    | zero =>
      intro _ _ hstart
      rw [heatIter, hstart, Nat.zero_mul, Nat.sub_zero]
    | succ m ih =>
      intro hj hdead hstart
      have hm := ih hj (fun k hk => hdead k (by omega)) hstart
      have hjm : j < (heatIter gs decay maxHeat h0 m).length := by
        rw [heatIter_length]; exact hj
      rw [heatIter, updateHeatMap_getD _ _ _ _ hjm]
      rw [if_neg (by rw [hdead m (by omega)]; omega), hm]
      have hms : (m + 1) * decay = m * decay + decay := by ring
      split
      · rw [Nat.mod_eq_of_lt (by omega)]; omega
      · omega

/-- Witness for the amended C6: previous heat `[7, 3]`, current grid
`[1, 0]`, decay 2, maxHeat 10, and three dead updates from full heat. -/
theorem updateHeatMap_spec_witness :
    ([1, 0] : List Nat).length = ([7, 3] : List Nat).length ∧ 0 < ([7, 3] : List Nat).length ∧
    (10 : Nat) ≤ 255 ∧ ([7, 3] : List Nat).getD 0 0 ≤ 10 ∧
    (((([1, 0] : List Nat).getD 0 0 ≠ 0 →
        (updateHeatMap [7, 3] [1, 0] 2 10).getD 0 0 = 10) ∧
      (([1, 0] : List Nat).getD 0 0 = 0 →
        (updateHeatMap [7, 3] [1, 0] 2 10).getD 0 0 = ([7, 3] : List Nat).getD 0 0 - 2) ∧
      (updateHeatMap [7, 3] [1, 0] 2 10).getD 0 0 ≤ 10) ∧
     (∀ (gs : Nat → List Nat) (h0 : List Nat) (j m : Nat), j < h0.length →
       (∀ k, k < m → (gs k).getD j 0 = 0) → h0.getD j 0 = 10 →
       (heatIter gs 2 10 h0 m).getD j 0 = 10 - m * 2)) :=
  ⟨by decide, by decide, by decide, by decide,
    updateHeatMap_spec [7, 3] [1, 0] 2 10 0 (by decide) (by decide) (by decide) (by decide)⟩

/-! ## Diff counter -/

theorem foldl_pair_count (P1 P2 : Nat → Prop) [DecidablePred P1] [DecidablePred P2] :
    ∀ (l : List Nat) (a : Nat × Nat),
      l.foldl (fun acc i =>
        ((if P1 i then acc.1 + 1 else acc.1), (if P2 i then acc.2 + 1 else acc.2))) a =
      (a.1 + l.countP (fun i => decide (P1 i)), a.2 + l.countP (fun i => decide (P2 i))) := by
  intro l
  induction l with
  | nil => intro a; simp
  | cons j rest ih =>
    intro a
    rw [List.foldl_cons, ih, List.countP_cons, List.countP_cons]
    by_cases h1 : P1 j <;> by_cases h2 : P2 j <;>
      simp [h1, h2, Prod.ext_iff] <;> omega

theorem countP_three_partition (p q r : Nat → Bool) :
    ∀ l : List Nat,
      (∀ i ∈ l, (if p i then 1 else 0) + (if q i then 1 else 0) +
        (if r i then 1 else 0) = 1) →
      l.countP p + l.countP q + l.countP r = l.length := by
  intro l
  induction l with
  | nil => intro _; rfl
  | cons j rest ih =>
    intro h
    rw [List.countP_cons, List.countP_cons, List.countP_cons, List.length_cons]
    have hj := h j (List.mem_cons_self j rest)
    have hr := ih (fun i hi => h i (List.mem_cons_of_mem j hi))
    by_cases hp : p j = true <;> by_cases hq : q j = true <;>
      by_cases hrr : r j = true <;> simp [hp, hq, hrr] at hj ⊢ <;> omega

end GameOfLife

namespace GameOfLife

theorem getD_val01 {l : List Nat} (hv : ∀ v ∈ l, v = 0 ∨ v = 1) (i : Nat) :
    l.getD i 0 = 0 ∨ l.getD i 0 = 1 := by
  by_cases h : i < l.length
  · rw [List.getD_eq_getElem?_getD, List.getElem?_eq_getElem h]
    exact hv _ (List.getElem_mem h)
  · rw [List.getD_eq_default _ _ (by omega)]
    left
    rfl

theorem countBirthsAndDeaths_eq (previous current : List Nat) :
    countBirthsAndDeaths previous current =
      ((List.range previous.length).countP
          (fun i => decide (previous.getD i 0 = 0 ∧ current.getD i 0 ≠ 0)),
       (List.range previous.length).countP
          (fun i => decide (previous.getD i 0 ≠ 0 ∧ current.getD i 0 = 0))) := by
  unfold countBirthsAndDeaths
  rw [foldl_pair_count]
  simp

/-- C7: with both buffers 0/1-valued and of equal length, `births` counts
the `0 -> 1` indices, `deaths` counts the `1 -> 0` indices, and
`births + deaths + unchanged = length`. -/
theorem countBirthsAndDeaths_spec (previous current : List Nat)
    (hlen : current.length = previous.length)
    (hvp : ∀ v ∈ previous, v = 0 ∨ v = 1) (hvc : ∀ v ∈ current, v = 0 ∨ v = 1) :
    (countBirthsAndDeaths previous current).1 =
      (List.range previous.length).countP
        (fun i => decide (previous.getD i 0 = 0 ∧ current.getD i 0 = 1)) ∧
    (countBirthsAndDeaths previous current).2 =
      (List.range previous.length).countP
        (fun i => decide (previous.getD i 0 = 1 ∧ current.getD i 0 = 0)) ∧
    (countBirthsAndDeaths previous current).1 +
      (countBirthsAndDeaths previous current).2 +
      (List.range previous.length).countP
        (fun i => decide (previous.getD i 0 = current.getD i 0)) =
      previous.length := by
  have heq := countBirthsAndDeaths_eq previous current
  have hb : (countBirthsAndDeaths previous current).1 =
      (List.range previous.length).countP
        (fun i => decide (previous.getD i 0 = 0 ∧ current.getD i 0 = 1)) := by
    rw [heq]
    apply List.countP_congr
    intro i _
    rcases getD_val01 hvp i with h1 | h1 <;> rcases getD_val01 hvc i with h2 | h2 <;>
      simp only [h1, h2] <;> decide
  have hd : (countBirthsAndDeaths previous current).2 =
      (List.range previous.length).countP
        (fun i => decide (previous.getD i 0 = 1 ∧ current.getD i 0 = 0)) := by
    rw [heq]
    apply List.countP_congr
    intro i _
    rcases getD_val01 hvp i with h1 | h1 <;> rcases getD_val01 hvc i with h2 | h2 <;>
      simp only [h1, h2] <;> decide
  refine ⟨hb, hd, ?_⟩
  rw [hb, hd]
  have hpart := countP_three_partition
    (fun i => decide (previous.getD i 0 = 0 ∧ current.getD i 0 = 1))
    (fun i => decide (previous.getD i 0 = 1 ∧ current.getD i 0 = 0))
    (fun i => decide (previous.getD i 0 = current.getD i 0))
    (List.range previous.length)
    (by
      intro i _
      rcases getD_val01 hvp i with h1 | h1 <;> rcases getD_val01 hvc i with h2 | h2 <;>
        simp only [h1, h2] <;> decide)
  rwa [List.length_range] at hpart

/-- Witness for C7 at `previous = [0,1,1,0]`, `current = [1,1,0,0]`
(1 birth, 1 death, 2 unchanged). -/
theorem countBirthsAndDeaths_spec_witness :
    ([1, 1, 0, 0] : List Nat).length = ([0, 1, 1, 0] : List Nat).length ∧
    (∀ v ∈ ([0, 1, 1, 0] : List Nat), v = 0 ∨ v = 1) ∧
    (∀ v ∈ ([1, 1, 0, 0] : List Nat), v = 0 ∨ v = 1) ∧
    ((countBirthsAndDeaths [0, 1, 1, 0] [1, 1, 0, 0]).1 =
      (List.range ([0, 1, 1, 0] : List Nat).length).countP
        (fun i => decide (([0, 1, 1, 0] : List Nat).getD i 0 = 0 ∧
          ([1, 1, 0, 0] : List Nat).getD i 0 = 1)) ∧
     (countBirthsAndDeaths [0, 1, 1, 0] [1, 1, 0, 0]).2 =
      (List.range ([0, 1, 1, 0] : List Nat).length).countP
        (fun i => decide (([0, 1, 1, 0] : List Nat).getD i 0 = 1 ∧
          ([1, 1, 0, 0] : List Nat).getD i 0 = 0)) ∧
     (countBirthsAndDeaths [0, 1, 1, 0] [1, 1, 0, 0]).1 +
      (countBirthsAndDeaths [0, 1, 1, 0] [1, 1, 0, 0]).2 +
      (List.range ([0, 1, 1, 0] : List Nat).length).countP
        (fun i => decide (([0, 1, 1, 0] : List Nat).getD i 0 =
          ([1, 1, 0, 0] : List Nat).getD i 0)) =
      ([0, 1, 1, 0] : List Nat).length) :=
  ⟨by decide, by decide, by decide,
    countBirthsAndDeaths_spec [0, 1, 1, 0] [1, 1, 0, 0]
      (by decide) (by decide) (by decide)⟩

end GameOfLife

namespace GameOfLife

/-! ## Edit-operation helpers -/

theorem normalizeCoord_wrap_tmod (value m : Int) :
    normalizeCoord value m true = some (Int.tmod (value + m) m) := rfl

theorem normalizeCoord_bounded_some {value m : Int} (h0 : 0 ≤ value) (h1 : value < m) :
    normalizeCoord value m false = some value := by
  unfold normalizeCoord
  rw [if_neg (by simp), if_neg (by omega)]

theorem normalizeCoord_bounded_inv {value m nx : Int}
    (h : normalizeCoord value m false = some nx) :
    nx = value ∧ 0 ≤ value ∧ value < m := by
  unfold normalizeCoord at h
  rw [if_neg (by simp)] at h
  split at h
  · cases h
  · rename_i hc
    push_neg at hc
    exact ⟨(Option.some.inj h).symm, by omega, by omega⟩

theorem writeIndex_eq_of_norm (cols rows : Nat) (cx cy : Int) (wrap : Bool)
    (gx gy nx ny : Int)
    (hx : normalizeCoord (cx + gx) cols wrap = some nx)
    (hy : normalizeCoord (cy + gy) rows wrap = some ny) :
    writeIndex cols rows cx cy wrap (gx, gy) = some (indexOf nx ny cols) := by
  show (match normalizeCoord (cx + gx) (cols : Int) wrap,
      normalizeCoord (cy + gy) (rows : Int) wrap with
    | some nx, some ny => some (indexOf nx ny cols)
    | _, _ => none) = some (indexOf nx ny cols)
  rw [hx, hy]

theorem writeIndex_inv {cols rows : Nat} {cx cy : Int} {wrap : Bool}
    {d : Int × Int} {j : Int} (h : writeIndex cols rows cx cy wrap d = some j) :
    ∃ nx ny, normalizeCoord (cx + d.1) cols wrap = some nx ∧
      normalizeCoord (cy + d.2) rows wrap = some ny ∧ j = indexOf nx ny cols := by
  unfold writeIndex at h
  split at h
  · rename_i nx ny hnx hny
    exact ⟨nx, ny, hnx, hny, (Option.some.inj h).symm⟩
  · cases h

theorem target_index_bounds (cols rows : Nat) (ex ey : Int)
    (hex : 0 ≤ ex ∧ ex < cols) (hey : 0 ≤ ey ∧ ey < rows) :
    0 ≤ indexOf ex ey cols ∧ (indexOf ex ey cols).toNat < cols * rows := by
  unfold indexOf
  have h1 : 0 ≤ ey * (cols : Int) := mul_nonneg hey.1 (by omega)
  have h2 : ey * (cols : Int) ≤ ((rows : Int) - 1) * cols :=
    mul_le_mul_of_nonneg_right (by omega) (by omega)
  have h3 : ((rows : Int) - 1) * cols = (rows : Int) * cols - cols := by ring
  have h4 : ((rows : Int)) * cols = ((rows * cols : Nat) : Int) := by push_cast; ring
  have h5 : cols * rows = rows * cols := Nat.mul_comm cols rows
  constructor
  · omega
  · omega

theorem writeCells_getD_of_mem (cols rows : Nat) (cx cy : Int) (wrap : Bool)
    (v : Nat) (offs : List (Int × Int)) (g : List Nat) (i : Nat)
    (hi : i < g.length) (d : Int × Int) (hd : d ∈ offs)
    (hw : writeIndex cols rows cx cy wrap d = some (i : Int)) :
    (writeCells g cols rows cx cy wrap v offs).getD i 0 = v % 256 := by
  rw [writeCells_getD cols rows cx cy wrap v offs g i hi, if_pos]
  rw [List.any_eq_true]
  exact ⟨d, hd, by rw [hw]; simp⟩

theorem writeCells_getD_of_not_mem (cols rows : Nat) (cx cy : Int) (wrap : Bool)
    (v : Nat) (offs : List (Int × Int)) (g : List Nat) (i : Nat)
    (hi : i < g.length)
    (hnone : ∀ d ∈ offs, ¬writeIndex cols rows cx cy wrap d = some (i : Int)) :
    (writeCells g cols rows cx cy wrap v offs).getD i 0 = g.getD i 0 := by
  rw [writeCells_getD cols rows cx cy wrap v offs g i hi, if_neg]
  rw [List.any_eq_true]
  rintro ⟨d, hd, hbeq⟩
  exact hnone d hd (by simpa using hbeq)

/-- C10: any integer `size ≤ 2` (0, 1, 2 and all negative sizes) clamps
the brush radius to 0, and the brush then affects exactly the single
in-range centre cell, under either edge policy; no `size` makes the
operation fail (it is a total function). -/
theorem applyBrush_small_size (g : List Nat) (cols rows : Nat) (x y size : Int)
    (alive wrap : Bool) (hlen : g.length = cols * rows)
    (hx : 0 ≤ x ∧ x < cols) (hy : 0 ≤ y ∧ y < rows) (hsize : size ≤ 2) :
    brushRadius size = 0 ∧
    (applyBrush g cols rows x y size alive wrap).getD (y * (cols : Int) + x).toNat 0 =
      (if alive then 1 else 0) ∧
    (∀ i : Nat, i < g.length → i ≠ (y * (cols : Int) + x).toNat →
      (applyBrush g cols rows x y size alive wrap).getD i 0 = g.getD i 0) := by
  have hr0 : brushRadius size = 0 := by unfold brushRadius; omega
  have hsq : squareOffsets 0 = [(0, 0)] := by decide
  have hv : (if alive then (1 : Nat) else 0) % 256 = (if alive then 1 else 0) := by
    cases alive <;> rfl
  have hwidx : writeIndex cols rows x y wrap (0, 0) = some (y * (cols : Int) + x) := by
    cases wrap
    · have hnx : normalizeCoord (x + 0) (cols : Int) false = some (x + 0) :=
        normalizeCoord_bounded_some (by omega) (by omega)
      have hny : normalizeCoord (y + 0) (rows : Int) false = some (y + 0) :=
        normalizeCoord_bounded_some (by omega) (by omega)
      rw [writeIndex_eq_of_norm cols rows x y false 0 0 (x + 0) (y + 0) hnx hny]
      unfold indexOf
      rw [show (y + 0) * (cols : Int) + (x + 0) = y * (cols : Int) + x by ring]
    · have hnx : normalizeCoord (x + 0) (cols : Int) true = some x := by
        rw [normalizeCoord_wrap_tmod, tmod_add_eq_emod (by omega) (by omega)]
        rw [show x + 0 = x by ring, Int.emod_eq_of_lt hx.1 hx.2]
      have hny : normalizeCoord (y + 0) (rows : Int) true = some y := by
        rw [normalizeCoord_wrap_tmod, tmod_add_eq_emod (by omega) (by omega)]
        rw [show y + 0 = y by ring, Int.emod_eq_of_lt hy.1 hy.2]
      rw [writeIndex_eq_of_norm cols rows x y true 0 0 x y hnx hny]
      rfl
  have hbounds := target_index_bounds cols rows x y hx hy
  unfold indexOf at hbounds
  have hcast : (((y * (cols : Int) + x).toNat : Nat) : Int) = y * (cols : Int) + x :=
    Int.toNat_of_nonneg hbounds.1
  refine ⟨hr0, ?_, ?_⟩
  · unfold applyBrush
    rw [hr0, hsq]
    conv_rhs => rw [← hv]
    refine writeCells_getD_of_mem cols rows x y wrap _ _ g
      ((y * (cols : Int) + x).toNat) ?_ (0, 0) (List.mem_singleton.mpr rfl) ?_
    · omega
    · rw [hwidx, hcast]
  · intro i hilen hine
    unfold applyBrush
    rw [hr0, hsq]
    apply writeCells_getD_of_not_mem cols rows x y wrap _ _ g i hilen
    intro d hd hw
    rw [List.mem_singleton.mp hd, hwidx] at hw
    have := Option.some.inj hw
    omega

/-- Witness for C10 on a 2x2 grid, brush size 0 at centre `(1, 0)`. -/
theorem applyBrush_small_size_witness :
    ([0, 0, 0, 0] : List Nat).length = 2 * 2 ∧
    ((0 : Int) ≤ 1 ∧ (1 : Int) < 2) ∧ ((0 : Int) ≤ 0 ∧ (0 : Int) < 2) ∧
    (0 : Int) ≤ 2 ∧
    (brushRadius 0 = 0 ∧
     (applyBrush [0, 0, 0, 0] 2 2 1 0 0 true false).getD
       ((0 : Int) * (2 : Int) + 1).toNat 0 = (if true then 1 else 0) ∧
     (∀ i : Nat, i < ([0, 0, 0, 0] : List Nat).length →
       i ≠ ((0 : Int) * (2 : Int) + 1).toNat →
       (applyBrush [0, 0, 0, 0] 2 2 1 0 0 true false).getD i 0 =
         ([0, 0, 0, 0] : List Nat).getD i 0)) :=
  ⟨by decide, ⟨by decide, by decide⟩, ⟨by decide, by decide⟩, by decide,
    applyBrush_small_size [0, 0, 0, 0] 2 2 1 0 0 true false
      (by decide) ⟨by decide, by decide⟩ ⟨by decide, by decide⟩ (by decide)⟩

end GameOfLife

namespace GameOfLife

/-- C8: stamping only sets cells to alive: a cell live in the input stays
live, and a cell not targeted by any normalized pattern offset keeps
exactly its input value. -/
theorem stampPattern_additive (g : List Nat) (cols rows : Nat) (name : PatternName)
    (cx cy : Int) (wrap : Bool) (i : Nat) (hi : i < g.length) :
    (g.getD i 0 = 1 → (stampPattern g cols rows name cx cy wrap).getD i 0 = 1) ∧
    ((∀ d ∈ PATTERN_OFFSETS name, ¬writeIndex cols rows cx cy wrap d = some (i : Int)) →
      (stampPattern g cols rows name cx cy wrap).getD i 0 = g.getD i 0) := by
  constructor
  · intro hlive
    unfold stampPattern
    rw [writeCells_getD cols rows cx cy wrap 1 (PATTERN_OFFSETS name) g i hi]
    split
    · rfl
    · exact hlive
  · intro hnone
    unfold stampPattern
    exact writeCells_getD_of_not_mem cols rows cx cy wrap 1 (PATTERN_OFFSETS name) g i hi hnone

/-- Witness for C8: stamping the blinker at `(0, 0)` of a 2x2 wrap grid
with cell 3 already live. -/
theorem stampPattern_additive_witness :
    3 < ([0, 0, 0, 1] : List Nat).length ∧
    ((([0, 0, 0, 1] : List Nat).getD 3 0 = 1 →
      (stampPattern [0, 0, 0, 1] 2 2 .blinker 0 0 true).getD 3 0 = 1) ∧
     ((∀ d ∈ PATTERN_OFFSETS .blinker,
        ¬writeIndex 2 2 0 0 true d = some ((3 : Nat) : Int)) →
      (stampPattern [0, 0, 0, 1] 2 2 .blinker 0 0 true).getD 3 0 =
        ([0, 0, 0, 1] : List Nat).getD 3 0)) :=
  ⟨by decide, stampPattern_additive [0, 0, 0, 1] 2 2 .blinker 0 0 true 3 (by decide)⟩

/-- With wrap, an in-range base coordinate `x` and any `|dx| ≤ r` admit an
offset `gx` in `[-r, r]` whose normalized coordinate is the mathematical
`(x + dx) mod cols`: either `x + dx + cols` is already nonnegative (the JS
remainder is then the true modulus), or `r` exceeds `x + cols` and the
representative `(x + dx) mod cols - x` lies in `[-r, r]`. -/
theorem wrap_good_offset (cols : Nat) (x dx r : Int)
    (hx0 : 0 ≤ x) (hx1 : x < (cols : Int)) (hdx1 : -r ≤ dx) (hdx2 : dx ≤ r) :
    ∃ gx : Int, -r ≤ gx ∧ gx ≤ r ∧
      normalizeCoord (x + gx) (cols : Int) true = some ((x + dx) % (cols : Int)) := by
  by_cases h : 0 ≤ x + dx + (cols : Int)
  · refine ⟨dx, hdx1, hdx2, ?_⟩
    rw [normalizeCoord_wrap_tmod, tmod_add_eq_emod h (by omega)]
  · have h1 : 0 ≤ (x + dx) % (cols : Int) := Int.emod_nonneg _ (by omega)
    have h2 : (x + dx) % (cols : Int) < (cols : Int) := Int.emod_lt_of_pos _ (by omega)
    refine ⟨(x + dx) % (cols : Int) - x, by omega, by omega, ?_⟩
    rw [normalizeCoord_wrap_tmod,
      show x + ((x + dx) % (cols : Int) - x) + (cols : Int) =
        (x + dx) % (cols : Int) + (cols : Int) by ring,
      tmod_add_eq_emod (by omega) (by omega), Int.emod_eq_of_lt h1 h2]

/-- C5: for an in-range centre, odd brush size with radius
`r = floor((size-1)/2)` and any offset with `|dx| ≤ r`, `|dy| ≤ r`:
with wrap the brush value lands at `((x+dx) mod cols, (y+dy) mod rows)`
(the modulus being in range); without wrap the offset is applied iff it
stays in `[0, cols) x [0, rows)`, other in-range offsets still apply, and
a cell targeted by no in-range offset is untouched. -/
theorem applyBrush_offset_spec (g : List Nat) (cols rows : Nat)
    (x y size dx dy : Int) (alive wrap : Bool)
    (hlen : g.length = cols * rows)
    (hx : 0 ≤ x ∧ x < (cols : Int)) (hy : 0 ≤ y ∧ y < (rows : Int))
    (hodd : size % 2 = 1)
    (hdx : -(brushRadius size) ≤ dx ∧ dx ≤ brushRadius size)
    (hdy : -(brushRadius size) ≤ dy ∧ dy ≤ brushRadius size) :
    (wrap = true →
      0 ≤ (x + dx) % (cols : Int) ∧ (x + dx) % (cols : Int) < (cols : Int) ∧
      0 ≤ (y + dy) % (rows : Int) ∧ (y + dy) % (rows : Int) < (rows : Int) ∧
      (applyBrush g cols rows x y size alive true).getD
        ((y + dy) % (rows : Int) * (cols : Int) + (x + dx) % (cols : Int)).toNat 0 =
        (if alive then 1 else 0)) ∧
    (wrap = false → 0 ≤ x + dx → x + dx < (cols : Int) →
      0 ≤ y + dy → y + dy < (rows : Int) →
      (applyBrush g cols rows x y size alive false).getD
        ((y + dy) * (cols : Int) + (x + dx)).toNat 0 = (if alive then 1 else 0)) ∧
    (wrap = false → ∀ i : Nat, i < g.length →
      (∀ dx' dy' : Int, -(brushRadius size) ≤ dx' → dx' ≤ brushRadius size →
        -(brushRadius size) ≤ dy' → dy' ≤ brushRadius size →
        0 ≤ x + dx' → x + dx' < (cols : Int) → 0 ≤ y + dy' → y + dy' < (rows : Int) →
        ((y + dy') * (cols : Int) + (x + dx')).toNat ≠ i) →
      (applyBrush g cols rows x y size alive false).getD i 0 = g.getD i 0) := by
  have hv : (if alive then (1 : Nat) else 0) % 256 = (if alive then 1 else 0) := by
    cases alive <;> rfl
  refine ⟨?_, ?_, ?_⟩
  · intro _
    obtain ⟨gx, hgx1, hgx2, hgxn⟩ :=
      wrap_good_offset cols x dx (brushRadius size) hx.1 hx.2 hdx.1 hdx.2
    obtain ⟨gy, hgy1, hgy2, hgyn⟩ :=
      wrap_good_offset rows y dy (brushRadius size) hy.1 hy.2 hdy.1 hdy.2
    have hex : 0 ≤ (x + dx) % (cols : Int) := Int.emod_nonneg _ (by omega)
    have hex2 : (x + dx) % (cols : Int) < (cols : Int) := Int.emod_lt_of_pos _ (by omega)
    have hey : 0 ≤ (y + dy) % (rows : Int) := Int.emod_nonneg _ (by omega)
    have hey2 : (y + dy) % (rows : Int) < (rows : Int) := Int.emod_lt_of_pos _ (by omega)
    refine ⟨hex, hex2, hey, hey2, ?_⟩
    have hw := writeIndex_eq_of_norm cols rows x y true gx gy _ _ hgxn hgyn
    have hb := target_index_bounds cols rows ((x + dx) % (cols : Int))
      ((y + dy) % (rows : Int)) ⟨hex, hex2⟩ ⟨hey, hey2⟩
    unfold indexOf at hw hb
    have hcast := Int.toNat_of_nonneg hb.1
    unfold applyBrush
    conv_rhs => rw [← hv]
    refine writeCells_getD_of_mem cols rows x y true _ _ g
      (((y + dy) % (rows : Int) * (cols : Int) + (x + dx) % (cols : Int)).toNat)
      ?_ (gx, gy) ?_ ?_
    · omega
    · exact mem_squareOffsets.mpr ⟨hgx1, hgx2, hgy1, hgy2⟩
    · rw [hw, hcast]
  · intro _ h1 h2 h3 h4
    have hnx := normalizeCoord_bounded_some h1 h2
    have hny := normalizeCoord_bounded_some h3 h4
    have hw := writeIndex_eq_of_norm cols rows x y false dx dy _ _ hnx hny
    have hb := target_index_bounds cols rows (x + dx) (y + dy) ⟨h1, h2⟩ ⟨h3, h4⟩
    unfold indexOf at hw hb
    have hcast := Int.toNat_of_nonneg hb.1
    unfold applyBrush
    conv_rhs => rw [← hv]
    refine writeCells_getD_of_mem cols rows x y false _ _ g
      (((y + dy) * (cols : Int) + (x + dx)).toNat) ?_ (dx, dy) ?_ ?_
    · omega
    · exact mem_squareOffsets.mpr ⟨hdx.1, hdx.2, hdy.1, hdy.2⟩
    · rw [hw, hcast]
  · intro _ i hilen hmiss
    unfold applyBrush
    apply writeCells_getD_of_not_mem cols rows x y false _ _ g i hilen
    intro d hd hw
    obtain ⟨hd1, hd2, hd3, hd4⟩ := mem_squareOffsets.mp hd
    obtain ⟨nx, ny, hnx, hny, hj⟩ := writeIndex_inv hw
    obtain ⟨hnxe, hnx0, hnx1⟩ := normalizeCoord_bounded_inv hnx
    obtain ⟨hnye, hny0, hny1⟩ := normalizeCoord_bounded_inv hny
    subst hnxe hnye
    unfold indexOf at hj
    exact hmiss d.1 d.2 hd1 hd2 hd3 hd4 hnx0 hnx1 hny0 hny1 (by omega)

/-- Witness for C5: a size-3 brush centred at `(1, 1)` of an all-dead
3x3 wrap grid, at offset `(1, 0)`. -/
theorem applyBrush_offset_spec_witness :
    (List.replicate 9 (0 : Nat)).length = 3 * 3 ∧
    ((0 : Int) ≤ 1 ∧ (1 : Int) < 3) ∧ ((0 : Int) ≤ 1 ∧ (1 : Int) < 3) ∧
    (3 : Int) % 2 = 1 ∧
    (-(brushRadius 3) ≤ (1 : Int) ∧ (1 : Int) ≤ brushRadius 3) ∧
    (-(brushRadius 3) ≤ (0 : Int) ∧ (0 : Int) ≤ brushRadius 3) ∧
    ((true = true →
      0 ≤ ((1 : Int) + 1) % (3 : Int) ∧ ((1 : Int) + 1) % (3 : Int) < (3 : Int) ∧
      0 ≤ ((1 : Int) + 0) % (3 : Int) ∧ ((1 : Int) + 0) % (3 : Int) < (3 : Int) ∧
      (applyBrush (List.replicate 9 0) 3 3 1 1 3 true true).getD
        (((1 : Int) + 0) % (3 : Int) * (3 : Int) + ((1 : Int) + 1) % (3 : Int)).toNat 0 =
        (if true then 1 else 0)) ∧
     (true = false → 0 ≤ (1 : Int) + 1 → (1 : Int) + 1 < (3 : Int) →
      0 ≤ (1 : Int) + 0 → (1 : Int) + 0 < (3 : Int) →
      (applyBrush (List.replicate 9 0) 3 3 1 1 3 true false).getD
        (((1 : Int) + 0) * (3 : Int) + ((1 : Int) + 1)).toNat 0 = (if true then 1 else 0)) ∧
     (true = false → ∀ i : Nat, i < (List.replicate 9 (0 : Nat)).length →
      (∀ dx' dy' : Int, -(brushRadius 3) ≤ dx' → dx' ≤ brushRadius 3 →
        -(brushRadius 3) ≤ dy' → dy' ≤ brushRadius 3 →
        0 ≤ 1 + dx' → 1 + dx' < (3 : Int) → 0 ≤ 1 + dy' → 1 + dy' < (3 : Int) →
        (((1 : Int) + dy') * (3 : Int) + ((1 : Int) + dx')).toNat ≠ i) →
      (applyBrush (List.replicate 9 0) 3 3 1 1 3 true false).getD i 0 =
        (List.replicate 9 (0 : Nat)).getD i 0)) :=
  ⟨by decide, ⟨by decide, by decide⟩, ⟨by decide, by decide⟩, by decide,
    ⟨by decide, by decide⟩, ⟨by decide, by decide⟩,
    applyBrush_offset_spec (List.replicate 9 0) 3 3 1 1 3 1 0 true true
      (by decide) ⟨by decide, by decide⟩ ⟨by decide, by decide⟩ (by decide)
      ⟨by decide, by decide⟩ ⟨by decide, by decide⟩⟩

end GameOfLife
